import Mathlib

/-!
Verification development for the ClickUp merging toolkit
(`git_manager.py` and `gui/gui.py`).

The external version-control tool is modelled as a pure oracle: every git
invocation whose result influences control flow is a field of `GitOracle`.
Branch names, task identifiers and file lines are modelled as `List Char`
(`Str`), so that every definition is executable and decidable.
-/

/-- Branch names, task ids and text lines are lists of characters. -/
abbrev Str := List Char

/-- Python's `str.strip()` whitespace test, restricted to the characters
that appear in git output (space, tab, carriage return, newline). -/
def isWs (c : Char) : Bool :=
  c = ' ' || c = '\t' || c = '\r' || c = '\n'

/-- Python's `line.strip()`: drop whitespace from both ends. -/
def pyStrip (l : Str) : Str :=
  ((l.dropWhile isWs).reverse.dropWhile isWs).reverse

/-- Contiguous-substring test: does `pat` occur somewhere inside `l`?
Models `re`'s ability to place the task id anywhere in the scanned text. -/
def listHasSub (pat : Str) : Str → Bool
  | [] => pat.isEmpty
  | c :: rest => pat.isPrefixOf (c :: rest) || listHasSub pat rest

/-- Python's `s.replace('origin/', '')`: delete every (non-overlapping,
left-to-right) occurrence of the 7-character remote marker. -/
def stripOrigin : Str → Str
  | 'o' :: 'r' :: 'i' :: 'g' :: 'i' :: 'n' :: '/' :: rest => stripOrigin rest
  | c :: rest => c :: stripOrigin rest
  | [] => []

example : pyStrip "  a b ".toList = "a b".toList := by decide
example : listHasSub "P3".toList "origin/feat-P3-1".toList = true := by decide
example : stripOrigin "origin/feat".toList = "feat".toList := by decide

/-!
Task-to-branch resolver (`GitManager.get_matching_branches`,
git_manager.py lines 188-209).

The source calls `self.get_merged_branches()` once per matched branch,
inside the inner loop.  Each such call runs `git branch --all --merged`
against the live repository, so successive calls may observe different
merge states.  We model the sequence of observations as an oracle
`mergedAt : Nat -> List Str` giving the result of the k-th call, and the
resolver threads a call counter.
-/

/-- The remote-branch lines returned by `get_remote_branches`
(git_manager.py lines 57-65): every full match of the regex `origin/.*`
in the output of `git branch -r`, hence each line starts with `origin/`. -/
def originMarker : Str := "origin/".toList

/-- One line of `git branch -r` output matches a task id when the line is a
remote-tracking ref (starts with `origin/`) and the task id occurs in the
rest of the line: this is `re.findall(r'origin/.*' + re.escape(task_id) +
r'.*', ...)` applied to lines of the shape produced by
`get_remote_branches` (git_manager.py line 201). -/
def matchesTask (taskId line : Str) : Bool :=
  originMarker.isPrefixOf line && listHasSub taskId (line.drop originMarker.length)

/-- The matched branch lines for one task id, in discovery order
(git_manager.py line 201). -/
def matchingBranchesFor (taskId : Str) (remoteBranches : List Str) : List Str :=
  remoteBranches.filter (matchesTask taskId)

/-- Normalization applied to each matched line:
`branch.strip().replace('origin/', '')` (git_manager.py line 204). -/
def normalizeBranch (line : Str) : Str :=
  stripOrigin (pyStrip line)

/-- Accumulator of the resolver loop: the required set (as a
duplicate-free list, modelling the Python `set`), the traceability map
(association list, modelling the Python `dict`), and the number of
`get_merged_branches` calls made so far. -/
structure ResolveAcc where
  required : List Str
  taskMap : List (Str × List Str)
  calls : Nat
deriving DecidableEq, Repr

/-- `required_branches.add(branch)`: set insertion. -/
def insertIfAbsent (b : Str) (s : List Str) : List Str :=
  if b ∈ s then s else s ++ [b]

/-- `task_branch_map[task_id].append(branch)`: append to the entry of the
(unique) key `t`. -/
def appendEntry (t b : Str) : List (Str × List Str) → List (Str × List Str)
  | [] => []
  | (k, l) :: rest =>
      if k = t then (k, l ++ [b]) :: rest else (k, l) :: appendEntry t b rest

/-- Inner loop of `get_matching_branches` (git_manager.py lines 203-208):
for each matched line, normalize it, query the merged branches (one oracle
call), and record the branch when it is not merged. -/
def resolveMatches (mergedAt : Nat → List Str) (taskId : Str) :
    List Str → ResolveAcc → ResolveAcc
  | [], acc => acc
  | line :: rest, acc =>
      let branch := normalizeBranch line
      let merged := mergedAt acc.calls
      let acc' :=
        if branch ∈ merged then
          ResolveAcc.mk acc.required acc.taskMap (acc.calls + 1)
        else
          ResolveAcc.mk (insertIfAbsent branch acc.required)
            (appendEntry taskId branch acc.taskMap) (acc.calls + 1)
      resolveMatches mergedAt taskId rest acc'

/-- Outer loop of `get_matching_branches` (git_manager.py lines 199-208). -/
def resolveTasks (mergedAt : Nat → List Str) (remoteBranches : List Str) :
    List Str → ResolveAcc → ResolveAcc
  | [], acc => acc
  | t :: rest, acc =>
      resolveTasks mergedAt remoteBranches rest
        (resolveMatches mergedAt t (matchingBranchesFor t remoteBranches) acc)

/-- `GitManager.get_matching_branches` (git_manager.py lines 188-209):
returns the required-branch set and the task-branch map.  The map is
initialized with an (empty) entry per distinct task id, as the dict
comprehension on line 196 does. -/
def get_matching_branches (mergedAt : Nat → List Str)
    (taskIds remoteBranches : List Str) : List Str × List (Str × List Str) :=
  let acc := resolveTasks mergedAt remoteBranches taskIds
    (ResolveAcc.mk [] (taskIds.dedup.map (fun t => (t, []))) 0)
  (acc.required, acc.taskMap)

/-- Modelled from the spec: the single-snapshot resolver of section 4.3,
which consults one fixed `mergedBranches` set for the whole resolution
call instead of re-querying per matched branch. -/
def resolveMatchesSnap (merged : List Str) (taskId : Str) :
    List Str → List Str × List (Str × List Str) → List Str × List (Str × List Str)
  | [], acc => acc
  | line :: rest, acc =>
      let branch := normalizeBranch line
      let acc' :=
        if branch ∈ merged then acc
        else (insertIfAbsent branch acc.1, appendEntry taskId branch acc.2)
      resolveMatchesSnap merged taskId rest acc'

/-- Modelled from the spec: outer loop of the single-snapshot resolver. -/
def resolveTasksSnap (merged : List Str) (remoteBranches : List Str) :
    List Str → List Str × List (Str × List Str) → List Str × List (Str × List Str)
  | [], acc => acc
  | t :: rest, acc =>
      resolveTasksSnap merged remoteBranches rest
        (resolveMatchesSnap merged t (matchingBranchesFor t remoteBranches) acc)

/-- Modelled from the spec: `resolve(taskIds, remoteBranches, mergedBranches)`
consulting the single snapshot `merged` throughout. -/
def resolve_snapshot (merged : List Str) (taskIds remoteBranches : List Str) :
    List Str × List (Str × List Str) :=
  resolveTasksSnap merged remoteBranches taskIds
    ([], taskIds.dedup.map (fun t => (t, [])))

/-!
Merge orchestration (`GitMergeToolkitGUI._merge_branches`,
`_finalize_merge` and `complete_resolve`, gui/gui.py).

Every git invocation whose result steers control flow becomes a field of
`GitOracle`.  The oracle is static across one run: the claims under
study are about control-flow order and state handling, not about the
evolution of the repository between commands.
-/

/-- Results of the git commands consulted by the orchestration.
`isAncestor a b` is `merge-base --is-ancestor a b` exiting 0
(`is_branch_merged`); `existsLocal` / `existsRemote` are the two
`show-ref --verify --quiet` probes; `mergeOk r` is whether
`git merge --no-ff r` succeeds (a failing merge raises, which the GUI
treats as a conflict); `currentBranch` is the stripped output of
`rev-parse --abbrev-ref HEAD` (empty when unresolvable);
`fetch origin b:b` failures are swallowed by the source's inner
`except ... pass`, so fetching needs no field. -/
structure GitOracle where
  currentBranch : Str
  isAncestor : Str → Str → Bool
  existsLocal : Str → Bool
  existsRemote : Str → Bool
  mergeOk : Str → Str → Bool

/-- Per-branch classification of a merge attempt (spec's `MergeOutcome`). -/
inductive Outcome where
  | AlreadyMerged
  | MergedNow
  | NotFound
  | Conflicted
deriving DecidableEq, Repr

/-- Classification of one branch by the initial run `_merge_branches`
(gui/gui.py lines 231-286): ancestor check first (line 235), then local
ref, then remote ref (lines 241-264), then the merge attempt on
`branch` or `origin/branch` (lines 266-286). -/
def mergeClassify (g : GitOracle) (current b : Str) : Outcome :=
  if g.isAncestor b current then .AlreadyMerged
  else if g.existsLocal b then
    (if g.mergeOk b current then .MergedNow else .Conflicted)
  else if g.existsRemote b then
    (if g.mergeOk (originMarker ++ b) current then .MergedNow else .Conflicted)
  else .NotFound

/-- Classification of one branch by the resumed run `_finalize_merge`
(gui/gui.py lines 404-453): existence resolution first (lines 407-430,
`NotFound` when neither ref resolves), then the ancestor check on the
target (line 435; the target is `branch` itself in both arms, line 432
builds `f"{branch}"` without the `origin/` prefix), then the merge. -/
def finalizeClassify (g : GitOracle) (current b : Str) : Outcome :=
  if g.existsLocal b then
    (if g.isAncestor b current then .AlreadyMerged
     else if g.mergeOk b current then .MergedNow else .Conflicted)
  else if g.existsRemote b then
    (if g.isAncestor b current then .AlreadyMerged
     else if g.mergeOk b current then .MergedNow else .Conflicted)
  else .NotFound

/-- Result of the initial run's loop: the three summary lists in source
order, the conflicted branch when the run paused (line 276), and the
pending branches the early `return` on line 286 never reached. -/
structure LoopResult where
  already_merged : List Str
  merged_now : List Str
  failed_merges : List Str
  conflict : Option Str
  remaining : List Str
deriving DecidableEq, Repr

/-- Loop body of `_merge_branches` (gui/gui.py lines 231-286): processes
branches in order and stops at the first conflict. -/
def mergeLoop (g : GitOracle) (current : Str) : List Str → LoopResult
  | [] => LoopResult.mk [] [] [] none []
  | b :: rest =>
      match mergeClassify g current b with
      | .Conflicted => LoopResult.mk [] [] [] (some b) rest
      | .AlreadyMerged =>
          let r := mergeLoop g current rest
          LoopResult.mk (b :: r.already_merged) r.merged_now r.failed_merges
            r.conflict r.remaining
      | .MergedNow =>
          let r := mergeLoop g current rest
          LoopResult.mk r.already_merged (b :: r.merged_now) r.failed_merges
            r.conflict r.remaining
      | .NotFound =>
          let r := mergeLoop g current rest
          LoopResult.mk r.already_merged r.merged_now (b :: r.failed_merges)
            r.conflict r.remaining

/-- Summary of the resumed run: `_finalize_merge` accumulates both
not-found branches and conflicting branches into `failed_merges`
(gui/gui.py lines 429 and 447) and never stops early. -/
structure FinReport where
  already_merged : List Str
  merged_now : List Str
  failed_merges : List Str
deriving DecidableEq, Repr

/-- Loop body of `_finalize_merge` (gui/gui.py lines 404-453): a conflict
is recorded and the loop continues with the next branch. -/
def finalizeLoop (g : GitOracle) (current : Str) : List Str → FinReport
  | [] => FinReport.mk [] [] []
  | b :: rest =>
      let r := finalizeLoop g current rest
      match finalizeClassify g current b with
      | .AlreadyMerged =>
          FinReport.mk (b :: r.already_merged) r.merged_now r.failed_merges
      | .MergedNow =>
          FinReport.mk r.already_merged (b :: r.merged_now) r.failed_merges
      | _ =>
          FinReport.mk r.already_merged r.merged_now (b :: r.failed_merges)

/-!
GUI state.  `conflict_occurred` and `current_conflict_branch` are plain
instance attributes that exist only after code has assigned them, so each
is an `Option`-wrapped value whose outer `none` means "attribute was
never set" (reading it raises `AttributeError`).  `requiredFile` is the
raw line content of `required_branches.txt` (`none` = file absent).
`mergeInProgress` records whether a conflicted merge is open in the
working tree (git's MERGE_HEAD): set when a run pauses on a conflict,
cleared by a successful commit or by `git merge --abort`.
-/

structure AppState where
  requiredFile : Option (List Str)
  conflict_occurred : Option Bool
  current_conflict_branch : Option (Option Str)
  mergeInProgress : Bool
deriving DecidableEq, Repr

/-- Reading `required_branches.txt`:
`[line.strip() for line in f if line.strip()]`
(gui/gui.py lines 210-211 and 384-385). -/
def readRequired (raw : List Str) : List Str :=
  (raw.map pyStrip).filter (fun l => !l.isEmpty)

/-- `GitMergeToolkitGUI._merge_branches` (gui/gui.py lines 192-317),
sequential part.  Early returns: missing file (line 205), empty list
(line 213), undetermined current branch (line 221) — each leaves the
state untouched and produces no run report.  On a conflict the run sets
`conflict_occurred` / `current_conflict_branch` (lines 275-276) and the
working tree is left mid-merge; the required-branches file is never
written by this method. -/
def merge_branches (g : GitOracle) (st : AppState) :
    AppState × Option LoopResult :=
  match st.requiredFile with
  | none => (st, none)
  | some raw =>
      let req := readRequired raw
      if req.isEmpty then (st, none)
      else if g.currentBranch.isEmpty then (st, none)
      else
        let r := mergeLoop g g.currentBranch req
        match r.conflict with
        | some b =>
            (AppState.mk st.requiredFile (some true) (some (some b)) true, some r)
        | none => (st, some r)

/-- `GitMergeToolkitGUI._finalize_merge` (gui/gui.py lines 375-481).
Early returns on missing file, empty list, or undetermined current
branch produce no report.  When `current_conflict_branch` is set and
truthy and its branch occurs in the list, the first occurrence is
removed (`list.remove`, lines 401-402).  The attribute-missing case
raises inside the method's own `try` and is swallowed by its handler
(lines 479-481), so it also yields no report.  The method only reads the
required-branches file, never writes it. -/
def finalize_merge (g : GitOracle) (st : AppState) : Option FinReport :=
  match st.requiredFile with
  | none => none
  | some raw =>
      let req := readRequired raw
      if req.isEmpty then none
      else if g.currentBranch.isEmpty then none
      else
        match st.current_conflict_branch with
        | none => none
        | some cbOpt =>
            let req2 :=
              match cbOpt with
              | some cb => if !cb.isEmpty && cb ∈ req then req.erase cb else req
              | none => req
            some (finalizeLoop g g.currentBranch req2)

/-- Observable result of `complete_resolve`. -/
inductive ResolveOutcome where
  | noConflictInfo
  | resolved (report : Option FinReport)
  | commitFailed (aborted : Bool)
  | attrCrash
deriving DecidableEq, Repr

/-- `GitMergeToolkitGUI.complete_resolve` (gui/gui.py lines 320-373).
`stageOk` / `commitOk` / `abortOk` are the success of `git add .`,
`git commit` and `git merge --abort`.  Control flow of the source:

* Line 326 guard `not self.conflict_occurred or not
  self.current_conflict_branch` — short-circuit: a missing
  `conflict_occurred` attribute raises `AttributeError`, which the
  handler (line 360) catches; the handler then reads
  `current_conflict_branch` (line 364) and, if that attribute is also
  missing, the second `AttributeError` escapes (`attrCrash`).
* Stage or commit failure (lines 333-337) jumps to the handler, which
  aborts the in-progress merge (line 366) — resetting the working tree —
  while leaving the conflict attributes set.
* On success the conflict attributes are reset (lines 343-344) before
  `_finalize_merge` runs (line 355), so the resumed run sees
  `current_conflict_branch = None`.  The asynchronous branch re-check
  spawned on line 358 runs on another thread and is outside this model.
-/
def complete_resolve (g : GitOracle) (st : AppState)
    (stageOk commitOk abortOk : Bool) : AppState × ResolveOutcome :=
  match st.conflict_occurred with
  | none =>
      match st.current_conflict_branch with
      | none => (st, .attrCrash)
      | some none => (st, .commitFailed false)
      | some (some cb) =>
          if cb.isEmpty then (st, .commitFailed false)
          else
            (AppState.mk st.requiredFile st.conflict_occurred
              st.current_conflict_branch (st.mergeInProgress && !abortOk),
             .commitFailed abortOk)
  | some false => (st, .noConflictInfo)
  | some true =>
      match st.current_conflict_branch with
      | none => (st, .attrCrash)
      | some none => (st, .noConflictInfo)
      | some (some cb) =>
          if cb.isEmpty then (st, .noConflictInfo)
          else if !stageOk || !commitOk then
            (AppState.mk st.requiredFile st.conflict_occurred
              st.current_conflict_branch (st.mergeInProgress && !abortOk),
             .commitFailed abortOk)
          else
            let st' := AppState.mk st.requiredFile (some false) (some none) false
            (st', .resolved (finalize_merge g st'))

/-!
Ancestor check and required-file pruning (`git_manager.py`).
-/

/-- `GitManager.is_branch_merged` (git_manager.py lines 76-88):
`subprocess.call(['git', 'merge-base', '--is-ancestor', ...]) == 0`.
`subprocess.call` returns the exit code and never raises for a nonzero
exit, so the function is total on exit codes. -/
def is_branch_merged (exitCode : Nat) : Bool :=
  exitCode == 0

/-- The same call site viewed as a fallible operation, for comparison
with the specified contract: the source has no failure path, so every
exit code yields an `ok` boolean. -/
def is_branch_merged_exc (exitCode : Nat) : Except Str Bool :=
  .ok (is_branch_merged exitCode)

/-- Modelled from the spec: `isAncestor` of section 4.2 — exit 0 is
`true`, exit 1 ("not an ancestor") is `false`, any other exit (missing
branch, repository error) is a distinct failure. -/
def isAncestor_spec (exitCode : Nat) : Except Str Bool :=
  if exitCode = 0 then .ok true
  else if exitCode = 1 then .ok false
  else .error "execution failure".toList

/-- `GitManager.remove_branch_from_required` (git_manager.py lines
222-240): keep `line.strip()` for every line whose stripped text is
non-empty and differs from `branch`, then write those stripped lines
back. -/
def remove_branch_from_required (branch : Str) (lines : List Str) : List Str :=
  (lines.map pyStrip).filter (fun l => !l.isEmpty && l ≠ branch)

/-!
Concrete repository scenarios used to evaluate the model.
-/

/-- A repository where every required branch exists locally, none is an
ancestor of the current branch, and every merge attempt conflicts. -/
def gConf : GitOracle :=
  GitOracle.mk "main".toList (fun _ _ => false) (fun _ => true)
    (fun _ => false) (fun _ _ => false)

/-- A repository where every required branch exists locally, none is an
ancestor, and every merge attempt succeeds. -/
def gOk : GitOracle :=
  GitOracle.mk "main".toList (fun _ _ => false) (fun _ => true)
    (fun _ => false) (fun _ _ => true)

/-- A repository after the conflict on `fa` was resolved and committed:
`fa` is now an ancestor of the current branch, every branch exists
locally, and remaining merges succeed. -/
def gResolved : GitOracle :=
  GitOracle.mk "main".toList (fun a _ => a == "fa".toList) (fun _ => true)
    (fun _ => false) (fun _ _ => true)

/-- A repository in which a branch is an ancestor of the current branch
but resolves to no local or remote ref. -/
def gGhost : GitOracle :=
  GitOracle.mk "main".toList (fun _ _ => true) (fun _ => false)
    (fun _ => false) (fun _ _ => true)

/-!
Claim C1.
-/

/-- Claim C1, counterexample: in the resumed run after conflict
finalization (`_finalize_merge`), a conflicting merge does not stop
orchestration.  With both `fa` and `fb` conflicting, both are attempted
and both are classified as conflicted (recorded in `failed_merges`), so
a single resumed run classifies two branches as Conflicted and advances
past the first outstanding conflict. -/
theorem resumed_run_advances_past_conflict :
    finalizeClassify gConf "main".toList "fa".toList = .Conflicted ∧
    finalizeClassify gConf "main".toList "fb".toList = .Conflicted ∧
    finalizeLoop gConf "main".toList ["fa".toList, "fb".toList] =
      FinReport.mk [] [] ["fa".toList, "fb".toList] := by
  decide

/-- Claim C1, amended: in the initial run (`_merge_branches`) at most one
branch is classified Conflicted — the loop stops at the first conflicting
branch, never attempting a branch after it (the untouched suffix is the
`remaining` pending sequence), and when the run ends without a conflict
no pending branch was conflicting.  In the resumed run
(`_finalize_merge`) a conflict does not pause orchestration: every
pending branch is attempted and classified, conflicts included. -/
theorem merge_run_single_conflict_resumed_run_continues
    (g : GitOracle) (cur : Str) (pending : List Str) :
    (∀ b, (mergeLoop g cur pending).conflict = some b →
      ∃ pre post, pending = pre ++ b :: post ∧
        (mergeLoop g cur pending).remaining = post ∧
        (∀ x ∈ pre, mergeClassify g cur x ≠ .Conflicted) ∧
        mergeClassify g cur b = .Conflicted) ∧
    ((mergeLoop g cur pending).conflict = none →
      ∀ x ∈ pending, mergeClassify g cur x ≠ .Conflicted) ∧
    ((finalizeLoop g cur pending).already_merged.length +
      (finalizeLoop g cur pending).merged_now.length +
      (finalizeLoop g cur pending).failed_merges.length = pending.length) := by
  induction pending with
  | nil =>
      refine ⟨fun b h => by simp [mergeLoop] at h,
        fun _ x hx => absurd hx (by simp), rfl⟩
  | cons a rest ih =>
      obtain ⟨ih1, ih2, ih3⟩ := ih
      refine ⟨?_, ?_, ?_⟩
      · intro b hb
        cases hc : mergeClassify g cur a with
        | Conflicted =>
            simp only [mergeLoop, hc] at hb ⊢
            cases hb
            exact ⟨[], rest, rfl, rfl, by simp, hc⟩
        | AlreadyMerged =>
            simp only [mergeLoop, hc] at hb ⊢
            obtain ⟨pre, post, hpre, hrem, hnc, hcb⟩ := ih1 b hb
            refine ⟨a :: pre, post, by rw [hpre]; rfl, hrem, ?_, hcb⟩
            intro x hx
            rcases List.mem_cons.mp hx with h | h
            · subst h; simp [hc]
            · exact hnc x h
        | MergedNow =>
            simp only [mergeLoop, hc] at hb ⊢
            obtain ⟨pre, post, hpre, hrem, hnc, hcb⟩ := ih1 b hb
            refine ⟨a :: pre, post, by rw [hpre]; rfl, hrem, ?_, hcb⟩
            intro x hx
            rcases List.mem_cons.mp hx with h | h
            · subst h; simp [hc]
            · exact hnc x h
        | NotFound =>
            simp only [mergeLoop, hc] at hb ⊢
            obtain ⟨pre, post, hpre, hrem, hnc, hcb⟩ := ih1 b hb
            refine ⟨a :: pre, post, by rw [hpre]; rfl, hrem, ?_, hcb⟩
            intro x hx
            rcases List.mem_cons.mp hx with h | h
            · subst h; simp [hc]
            · exact hnc x h
      · intro hn x hx
        cases hc : mergeClassify g cur a with
        | Conflicted => simp [mergeLoop, hc] at hn
        | AlreadyMerged =>
            simp only [mergeLoop, hc] at hn
            rcases List.mem_cons.mp hx with h | h
            · subst h; simp [hc]
            · exact ih2 hn x h
        | MergedNow =>
            simp only [mergeLoop, hc] at hn
            rcases List.mem_cons.mp hx with h | h
            · subst h; simp [hc]
            · exact ih2 hn x h
        | NotFound =>
            simp only [mergeLoop, hc] at hn
            rcases List.mem_cons.mp hx with h | h
            · subst h; simp [hc]
            · exact ih2 hn x h
      · cases hc : finalizeClassify g cur a <;>
          simp only [finalizeLoop, hc] <;> simp <;> omega

/-- Claim C1, witness: the amended theorem applied to a conflict-free
run over one branch. -/
theorem merge_run_single_conflict_witness :
    mergeClassify gOk "main".toList "fa".toList ≠ .Conflicted :=
  (merge_run_single_conflict_resumed_run_continues gOk "main".toList
    ["fa".toList]).2.1 (by decide) "fa".toList (by simp)
/-!
Claim C2.
-/

/-- A fresh session state whose required-branches file lists `fa`. -/
def stOneBranch : AppState :=
  AppState.mk (some ["fa".toList]) none none false

/-- Claim C2, counterexample: a run that merges `fa` leaves the persisted
required-branches file unchanged — the merged branch is not removed from
the file before (or after) orchestration proceeds past it. -/
theorem merged_branch_not_pruned_from_file :
    (merge_branches gOk stOneBranch).2 =
      some (LoopResult.mk [] ["fa".toList] [] none []) ∧
    (merge_branches gOk stOneBranch).1.requiredFile = some ["fa".toList] := by
  decide

/-- Claim C2, amended: the orchestration run never writes the persisted
required-branches file at all — neither `_merge_branches` nor
`complete_resolve` (including the `_finalize_merge` resumption, which
only reads it) removes a merged or dropped branch from it.
`remove_branch_from_required` exists in `GitManager` but is not invoked
by orchestration; the file is only rewritten wholesale by a later branch
re-check. -/
theorem orchestration_preserves_required_file (g : GitOracle) (st : AppState)
    (stageOk commitOk abortOk : Bool) :
    (merge_branches g st).1.requiredFile = st.requiredFile ∧
    (complete_resolve g st stageOk commitOk abortOk).1.requiredFile =
      st.requiredFile := by
  constructor
  · unfold merge_branches
    cases h : st.requiredFile with
    | none => simpa using h
    | some raw =>
        simp only
        split
        · exact h
        · split
          · exact h
          · split
            · rfl
            · exact h
  · unfold complete_resolve
    cases h1 : st.conflict_occurred with
    | none =>
        cases h2 : st.current_conflict_branch with
        | none => rfl
        | some cbOpt =>
            cases cbOpt with
            | none => rfl
            | some cb => simp only; split <;> rfl
    | some occ =>
        cases occ with
        | false => rfl
        | true =>
            cases h2 : st.current_conflict_branch with
            | none => rfl
            | some cbOpt =>
                cases cbOpt with
                | none => rfl
                | some cb => simp only; split
                             · rfl
                             · split <;> rfl

/-!
Claim C3.
-/

/-- A session paused on a conflict for `fa`, with `fb` still pending and
a conflicted merge open in the working tree. -/
def stPaused : AppState :=
  AppState.mk (some ["fa".toList, "fb".toList]) (some true)
    (some (some "fa".toList)) true

/-- Claim C3, counterexample: when the commit step of finalization
fails, the state does not remain untouched — `complete_resolve`'s
exception handler runs `git merge --abort`, so the conflicted working
tree (merge-in-progress) is discarded rather than preserved. -/
theorem commit_failure_aborts_merge :
    stPaused.mergeInProgress = true ∧
    (complete_resolve gConf stPaused true false true).1.mergeInProgress = false ∧
    (complete_resolve gConf stPaused true false true).2 =
      .commitFailed true := by
  decide

/-- Claim C3, amended: if the commit step of finalization fails, the
conflict flags are preserved (the state is still paused on the same
branch), the required-branches file is untouched, and the failure is
surfaced; but the exception handler aborts the in-progress merge, so the
conflicted working tree is reset instead of preserved — a retry of the
finalizer no longer operates on the resolved tree. -/
theorem commit_failure_keeps_flags_but_resets_tree
    (g : GitOracle) (st : AppState) (cb : Str) (abortOk : Bool)
    (hocc : st.conflict_occurred = some true)
    (hcb : st.current_conflict_branch = some (some cb))
    (hne : cb.isEmpty = false) :
    (complete_resolve g st true false abortOk).1.conflict_occurred = some true ∧
    (complete_resolve g st true false abortOk).1.current_conflict_branch =
      some (some cb) ∧
    (complete_resolve g st true false abortOk).1.requiredFile =
      st.requiredFile ∧
    (complete_resolve g st true false abortOk).2 = .commitFailed abortOk ∧
    (abortOk = true →
      (complete_resolve g st true false abortOk).1.mergeInProgress = false) := by
  simp only [complete_resolve, hocc, hcb, hne]
  refine ⟨rfl, rfl, rfl, rfl, fun ha => ?_⟩
  simp [ha]

/-- Claim C3, witness: the amended theorem evaluated on the concrete
paused session. -/
theorem commit_failure_keeps_flags_witness :
    (complete_resolve gConf stPaused true false true).1.conflict_occurred =
      some true :=
  (commit_failure_keeps_flags_but_resets_tree gConf stPaused "fa".toList true
    rfl rfl (by decide)).1

/-!
Claim C4.
-/

/-- Claim C4 (code bug), evaluation at the failing input: after a
successful finalization of the conflict on `fa`, the resumed run
processes `fa` again — it shows up in the resumed summary (classified
AlreadyMerged) instead of being cleared from the pending sequence.
`complete_resolve` resets `current_conflict_branch` to None (gui/gui.py
lines 343-344) before `_finalize_merge` runs, so the removal the code
intends at lines 399-402 never executes. -/
theorem resolved_branch_reprocessed_after_finalize :
    (complete_resolve gResolved stPaused true true true).2 =
      .resolved (some (FinReport.mk ["fa".toList] ["fb".toList] [])) := by
  decide

/-!
Claim C6.
-/

/-- Claim C6, counterexample: the two runs do not apply the same step
order.  For a branch that is an ancestor of the current branch but
resolves to no local or remote ref, the initial run (ancestor check
first) reports AlreadyMerged while the resumed run (existence check
first) reports NotFound. -/
theorem resumed_run_order_differs :
    mergeClassify gGhost "main".toList "fx".toList = .AlreadyMerged ∧
    finalizeClassify gGhost "main".toList "fx".toList = .NotFound := by
  decide

/-- Claim C6, amended: the initial run checks the ancestor first, then
existence, then merges (using the `origin/`-prefixed ref for a
remote-only branch); the resumed run checks existence first (NotFound
when neither ref resolves, regardless of ancestry), then the ancestor,
then merges without the `origin/` prefix.  The two orders agree except
when an ancestor branch resolves to no ref, and in the ref handed to the
merge for remote-only branches. -/
theorem run_step_order_characterization (g : GitOracle) (cur b : Str) :
    (g.isAncestor b cur = true → mergeClassify g cur b = .AlreadyMerged) ∧
    (g.existsLocal b = false → g.existsRemote b = false →
      finalizeClassify g cur b = .NotFound) ∧
    (g.isAncestor b cur = true →
      (g.existsLocal b = true ∨ g.existsRemote b = true) →
      finalizeClassify g cur b = .AlreadyMerged) ∧
    (g.isAncestor b cur = false → g.existsLocal b = true →
      mergeClassify g cur b =
        (if g.mergeOk b cur then .MergedNow else .Conflicted) ∧
      finalizeClassify g cur b =
        (if g.mergeOk b cur then .MergedNow else .Conflicted)) ∧
    (g.isAncestor b cur = false → g.existsLocal b = false →
      g.existsRemote b = true →
      mergeClassify g cur b =
        (if g.mergeOk (originMarker ++ b) cur then .MergedNow
         else .Conflicted) ∧
      finalizeClassify g cur b =
        (if g.mergeOk b cur then .MergedNow else .Conflicted)) ∧
    (g.isAncestor b cur = false → g.existsLocal b = false →
      g.existsRemote b = false →
      mergeClassify g cur b = .NotFound ∧
      finalizeClassify g cur b = .NotFound) := by
  refine ⟨?_, ?_, ?_, ?_, ?_, ?_⟩
  · intro h; simp [mergeClassify, h]
  · intro h1 h2; simp [finalizeClassify, h1, h2]
  · intro h he
    rcases he with he | he <;> simp [finalizeClassify, h, he]
  · intro h1 h2; constructor <;> simp [mergeClassify, finalizeClassify, h1, h2]
  · intro h1 h2 h3
    constructor <;> simp [mergeClassify, finalizeClassify, h1, h2, h3]
  · intro h1 h2 h3
    constructor <;> simp [mergeClassify, finalizeClassify, h1, h2, h3]

/-- Claim C6, witness: the amended characterization evaluated on a
locally existing, unmerged branch whose merge succeeds. -/
theorem run_step_order_witness :
    mergeClassify gOk "main".toList "fa".toList = .MergedNow := by
  have h := (run_step_order_characterization gOk "main".toList
    "fa".toList).2.2.2.1 (by decide) (by decide)
  simpa using h.1

/-!
Claim C7.
-/

/-- A fresh session: no file, no merge run yet, so neither conflict
attribute has ever been assigned. -/
def stFresh : AppState := AppState.mk none none none false

/-- Claim C7 (code bug), evaluation at the failing input: invoking the
finalizer before any merge run does not produce the clean
"no conflicts to resolve" report — reading the never-assigned
`conflict_occurred` raises, and the exception handler itself reads the
never-assigned `current_conflict_branch`, so a second AttributeError
escapes the handler. -/
theorem finalize_before_any_run_crashes :
    complete_resolve gConf stFresh true true true = (stFresh, .attrCrash) ∧
    .attrCrash ≠ ResolveOutcome.noConflictInfo := by
  decide

/-!
Claim C8.
-/

/-- Claim C8, counterexample: on a genuine execution failure —
`git merge-base` exits 128 for a missing branch or repository error —
`is_branch_merged` returns plain `false`, indistinguishable from "not an
ancestor", instead of raising the distinct failure the specified
contract demands. -/
theorem ancestor_check_returns_false_on_failure :
    is_branch_merged 128 = false ∧
    is_branch_merged_exc 128 = .ok false ∧
    isAncestor_spec 128 = .error "execution failure".toList :=
  ⟨rfl, rfl, rfl⟩

/-- Claim C8, amended: `is_branch_merged` is a total boolean on exit
codes — true exactly when `merge-base --is-ancestor` exits 0, false for
every nonzero exit code including genuine execution failures; it never
produces a distinct failure. -/
theorem ancestor_check_total_boolean (c : Nat) :
    (is_branch_merged c = true ↔ c = 0) ∧
    ∃ b, is_branch_merged_exc c = .ok b := by
  constructor
  · simp [is_branch_merged]
  · exact ⟨_, rfl⟩

/-- Claim C8, witness: the amended theorem evaluated at exit code 0. -/
theorem ancestor_check_total_boolean_witness :
    is_branch_merged 0 = true :=
  ((ancestor_check_total_boolean 0).1).mpr rfl

/-!
Claim C10.
-/

/-- Claim C10, counterexample: a kept line is not left unchanged — the
rewrite stores its stripped text.  The line `"  fa  "` survives removal
of `fb` but is written back as `"fa"`. -/
theorem kept_line_is_stripped :
    remove_branch_from_required "fb".toList
        ["  fa  ".toList, "fb".toList] = ["fa".toList] ∧
    "fa".toList ≠ "  fa  ".toList := by
  decide

/-- Claim C10, amended: the rewritten file contains, in original
relative order, the stripped text of exactly those previous lines whose
stripped text is non-blank and differs from the branch: the branch
(every occurrence, duplicates included) and blank lines never survive,
the output is a subsequence of the stripped input lines, and every
surviving stripped line is kept. -/
theorem remove_branch_spec (branch : Str) (lines : List Str) :
    branch ∉ remove_branch_from_required branch lines ∧
    [] ∉ remove_branch_from_required branch lines ∧
    List.Sublist (remove_branch_from_required branch lines)
      (lines.map pyStrip) ∧
    ∀ l ∈ lines, pyStrip l ≠ [] → pyStrip l ≠ branch →
      pyStrip l ∈ remove_branch_from_required branch lines := by
  refine ⟨?_, ?_, ?_, ?_⟩
  · intro h
    have := List.of_mem_filter h
    simp at this
  · intro h
    have := List.of_mem_filter h
    simp at this
  · exact List.filter_sublist _
  · intro l hl hne hnb
    unfold remove_branch_from_required
    refine List.mem_filter.mpr ⟨List.mem_map_of_mem pyStrip hl, ?_⟩
    simp [hne, hnb, List.isEmpty_iff]

/-- Claim C10, witness: the amended theorem evaluated on a two-line file. -/
theorem remove_branch_spec_witness :
    "fa".toList ∈ remove_branch_from_required "fb".toList
      ["  fa  ".toList, "fb".toList] := by
  have h := (remove_branch_spec "fb".toList
    ["  fa  ".toList, "fb".toList]).2.2.2 "  fa  ".toList
    (by simp) (by decide) (by decide)
  have e : pyStrip "  fa  ".toList = "fa".toList := by decide
  rw [e] at h
  exact h

/-!
Claim C5.
-/

/-- A merged-branch observation sequence that changes between the first
and the second `get_merged_branches` call: `T-b` becomes merged while
the resolver is still scanning. -/
def mergedShift : Nat → List Str :=
  fun n => if n = 0 then [] else ["T-b".toList]

/-- Remote branches for the single task id `T`. -/
def rbsT : List Str := ["origin/T-a".toList, "origin/T-b".toList]

/-- Claim C5, counterexample: the resolver does not consult a single
snapshot — its output depends on observations after the first call.
Two repositories that agree on the first `get_merged_branches`
observation give different required-branch sets for the same
`(taskIds, remoteBranches)` input, because the source re-queries the
merged branches once per matched branch. -/
theorem resolver_requeries_merged_state :
    (fun _ => ([] : List Str)) 0 = mergedShift 0 ∧
    get_matching_branches (fun _ => []) ["T".toList] rbsT ≠
      get_matching_branches mergedShift ["T".toList] rbsT := by
  constructor
  · decide
  · decide

/-- Helper: under a constant merged-branch observation, the source
resolver's inner loop computes the same required set and task map as the
single-snapshot inner loop (the call counter is the only difference). -/
theorem resolveMatches_const (M : List Str) (t : Str) :
    ∀ (lines : List Str) (acc : ResolveAcc),
      ((resolveMatches (fun _ => M) t lines acc).required,
        (resolveMatches (fun _ => M) t lines acc).taskMap) =
        resolveMatchesSnap M t lines (acc.required, acc.taskMap) := by
  intro lines
  induction lines with
  | nil => intro acc; rfl
  | cons line rest ih =>
      intro acc
      simp only [resolveMatches, resolveMatchesSnap]
      by_cases h : normalizeBranch line ∈ M
      · simp only [h, if_pos]
        exact ih (ResolveAcc.mk acc.required acc.taskMap (acc.calls + 1))
      · simp only [h, if_neg, not_false_iff]
        exact ih (ResolveAcc.mk (insertIfAbsent (normalizeBranch line) acc.required)
          (appendEntry t (normalizeBranch line) acc.taskMap) (acc.calls + 1))

/-- Helper: the same correspondence for the outer loop. -/
theorem resolveTasks_const (M : List Str) (rbs : List Str) :
    ∀ (tids : List Str) (acc : ResolveAcc),
      ((resolveTasks (fun _ => M) rbs tids acc).required,
        (resolveTasks (fun _ => M) rbs tids acc).taskMap) =
        resolveTasksSnap M rbs tids (acc.required, acc.taskMap) := by
  intro tids
  induction tids with
  | nil => intro acc; rfl
  | cons t rest ih =>
      intro acc
      simp only [resolveTasks, resolveTasksSnap]
      rw [← resolveMatches_const M t (matchingBranchesFor t rbs) acc]
      exact ih (resolveMatches (fun _ => M) t (matchingBranchesFor t rbs) acc)

/-- Claim C5, amended: the resolver re-queries the merged-branch set
once per matched branch, so resolution is deterministic only when the
merged-branch state is constant across the whole call: under a constant
observation `M`, `get_matching_branches` coincides exactly with the
specified single-snapshot resolver consulting `M` once. -/
theorem resolver_const_snapshot_eq (M tids rbs : List Str) :
    get_matching_branches (fun _ => M) tids rbs =
      resolve_snapshot M tids rbs := by
  unfold get_matching_branches resolve_snapshot
  simpa using resolveTasks_const M rbs tids
    (ResolveAcc.mk [] (tids.dedup.map (fun t => (t, []))) 0)

/-!
Claim C9.
-/

/-- Helper: appending a branch to one map entry does not change the key
list. -/
theorem appendEntry_keys (t b : Str) :
    ∀ m : List (Str × List Str),
      (appendEntry t b m).map Prod.fst = m.map Prod.fst := by
  intro m
  induction m with
  | nil => rfl
  | cons p rest ih =>
      obtain ⟨k, l⟩ := p
      by_cases h : k = t
      · simp [appendEntry, h]
      · simp [appendEntry, h, ih]

/-- Helper: the inner resolver loop never adds or removes map keys. -/
theorem resolveMatches_keys (o : Nat → List Str) (t : Str) :
    ∀ (lines : List Str) (acc : ResolveAcc),
      (resolveMatches o t lines acc).taskMap.map Prod.fst =
        acc.taskMap.map Prod.fst := by
  intro lines
  induction lines with
  | nil => intro acc; rfl
  | cons line rest ih =>
      intro acc
      simp only [resolveMatches]
      by_cases h : normalizeBranch line ∈ o acc.calls
      · simp only [h, if_pos]
        exact ih (ResolveAcc.mk acc.required acc.taskMap (acc.calls + 1))
      · simp only [h, if_neg, not_false_iff]
        rw [ih (ResolveAcc.mk (insertIfAbsent (normalizeBranch line) acc.required)
          (appendEntry t (normalizeBranch line) acc.taskMap) (acc.calls + 1))]
        exact appendEntry_keys t (normalizeBranch line) acc.taskMap

/-- Helper: the outer resolver loop never adds or removes map keys. -/
theorem resolveTasks_keys (o : Nat → List Str) (rbs : List Str) :
    ∀ (tids : List Str) (acc : ResolveAcc),
      (resolveTasks o rbs tids acc).taskMap.map Prod.fst =
        acc.taskMap.map Prod.fst := by
  intro tids
  induction tids with
  | nil => intro acc; rfl
  | cons t rest ih =>
      intro acc
      simp only [resolveTasks]
      rw [ih (resolveMatches o t (matchingBranchesFor t rbs) acc)]
      exact resolveMatches_keys o t (matchingBranchesFor t rbs) acc

/-- Helper: membership after set insertion comes from the old set or is
the inserted element. -/
theorem mem_insertIfAbsent {b x : Str} {s : List Str}
    (h : b ∈ insertIfAbsent x s) : b ∈ s ∨ b = x := by
  unfold insertIfAbsent at h
  split at h
  · exact Or.inl h
  · rcases List.mem_append.mp h with h1 | h1
    · exact Or.inl h1
    · exact Or.inr (List.mem_singleton.mp h1)

/-- Helper: appending a branch distinct from `b` to one entry keeps `b`
out of every entry. -/
theorem appendEntry_not_mem {b t x : Str} (hbx : b ≠ x) :
    ∀ m : List (Str × List Str), (∀ p ∈ m, b ∉ p.2) →
      ∀ p ∈ appendEntry t x m, b ∉ p.2 := by
  intro m
  induction m with
  | nil => intro _ p hp; simp [appendEntry] at hp
  | cons q rest ih =>
      obtain ⟨k, l⟩ := q
      intro hall p hp
      by_cases h : k = t
      · simp only [appendEntry, h, if_pos] at hp
        rcases List.mem_cons.mp hp with h1 | h1
        · subst h1
          intro hb
          rcases List.mem_append.mp hb with h2 | h2
          · exact hall (k, l) (List.mem_cons_self _ _) h2
          · exact hbx (List.mem_singleton.mp h2)
        · exact hall p (List.mem_cons_of_mem _ h1)
      · simp only [appendEntry, h, if_neg, not_false_iff] at hp
        rcases List.mem_cons.mp hp with h1 | h1
        · subst h1; exact hall (k, l) (List.mem_cons_self _ _)
        · exact ih (fun q hq => hall q (List.mem_cons_of_mem _ hq)) p h1

/-- Helper: the inner loop under a constant merged snapshot `M` keeps a
branch `b ∈ M` out of the required set and out of every map entry. -/
theorem resolveMatches_excludes (M : List Str) {b : Str} (hb : b ∈ M)
    (t : Str) :
    ∀ (lines : List Str) (acc : ResolveAcc),
      b ∉ acc.required → (∀ p ∈ acc.taskMap, b ∉ p.2) →
      b ∉ (resolveMatches (fun _ => M) t lines acc).required ∧
        ∀ p ∈ (resolveMatches (fun _ => M) t lines acc).taskMap, b ∉ p.2 := by
  intro lines
  induction lines with
  | nil => intro acc h1 h2; exact ⟨h1, h2⟩
  | cons line rest ih =>
      intro acc h1 h2
      simp only [resolveMatches]
      by_cases h : normalizeBranch line ∈ M
      · simp only [h, if_pos]
        exact ih (ResolveAcc.mk acc.required acc.taskMap (acc.calls + 1)) h1 h2
      · simp only [h, if_neg, not_false_iff]
        have hbx : b ≠ normalizeBranch line := fun e => h (e ▸ hb)
        refine ih _ ?_ ?_
        · intro hmem
          rcases mem_insertIfAbsent hmem with h3 | h3
          · exact h1 h3
          · exact hbx h3
        · exact appendEntry_not_mem hbx acc.taskMap h2

/-- Helper: the outer loop under a constant merged snapshot `M` keeps a
branch `b ∈ M` out of the required set and out of every map entry. -/
theorem resolveTasks_excludes (M : List Str) {b : Str} (hb : b ∈ M)
    (rbs : List Str) :
    ∀ (tids : List Str) (acc : ResolveAcc),
      b ∉ acc.required → (∀ p ∈ acc.taskMap, b ∉ p.2) →
      b ∉ (resolveTasks (fun _ => M) rbs tids acc).required ∧
        ∀ p ∈ (resolveTasks (fun _ => M) rbs tids acc).taskMap, b ∉ p.2 := by
  intro tids
  induction tids with
  | nil => intro acc h1 h2; exact ⟨h1, h2⟩
  | cons t rest ih =>
      intro acc h1 h2
      simp only [resolveTasks]
      obtain ⟨h1', h2'⟩ := resolveMatches_excludes M hb t
        (matchingBranchesFor t rbs) acc h1 h2
      exact ih _ h1' h2'

/-- Helper: appending a branch under a different task key leaves every
entry of key `t` untouched, so key-`t` entries that were empty stay
empty. -/
theorem appendEntry_preserves_other {t t' b : Str} (hne : t' ≠ t) :
    ∀ m : List (Str × List Str), (∀ p ∈ m, p.1 = t → p.2 = []) →
      ∀ p ∈ appendEntry t' b m, p.1 = t → p.2 = [] := by
  intro m
  induction m with
  | nil => intro _ p hp; simp [appendEntry] at hp
  | cons q rest ih =>
      obtain ⟨k, l⟩ := q
      intro hall p hp
      by_cases h : k = t'
      · simp only [appendEntry, h, if_pos] at hp
        rcases List.mem_cons.mp hp with h1 | h1
        · subst h1
          intro hkt
          exact absurd hkt hne
        · exact hall p (List.mem_cons_of_mem _ h1)
      · simp only [appendEntry, h, if_neg, not_false_iff] at hp
        rcases List.mem_cons.mp hp with h1 | h1
        · subst h1; exact hall (k, l) (List.mem_cons_self _ _)
        · exact ih (fun q hq => hall q (List.mem_cons_of_mem _ hq)) p h1

/-- Helper: the inner loop running for a task id other than `t` keeps
every key-`t` map entry empty. -/
theorem resolveMatches_preserves_other (o : Nat → List Str) {t t' : Str}
    (hne : t' ≠ t) :
    ∀ (lines : List Str) (acc : ResolveAcc),
      (∀ p ∈ acc.taskMap, p.1 = t → p.2 = []) →
      ∀ p ∈ (resolveMatches o t' lines acc).taskMap, p.1 = t → p.2 = [] := by
  intro lines
  induction lines with
  | nil => intro acc h; exact h
  | cons line rest ih =>
      intro acc h
      simp only [resolveMatches]
      by_cases hm : normalizeBranch line ∈ o acc.calls
      · simp only [hm, if_pos]
        exact ih _ h
      · simp only [hm, if_neg, not_false_iff]
        exact ih _ (appendEntry_preserves_other hne acc.taskMap h)

/-- Helper: when `t` matches no remote branch line, the whole outer loop
keeps every key-`t` map entry empty — iterations for `t` itself have an
empty match list and iterations for other task ids never touch `t`'s
entries. -/
theorem resolveTasks_empty_entry (o : Nat → List Str) (rbs : List Str)
    {t : Str} (hempty : matchingBranchesFor t rbs = []) :
    ∀ (tids : List Str) (acc : ResolveAcc),
      (∀ p ∈ acc.taskMap, p.1 = t → p.2 = []) →
      ∀ p ∈ (resolveTasks o rbs tids acc).taskMap, p.1 = t → p.2 = [] := by
  intro tids
  induction tids with
  | nil => intro acc h; exact h
  | cons tid rest ih =>
      intro acc h
      simp only [resolveTasks]
      by_cases htt : tid = t
      · subst htt
        rw [hempty]
        exact ih acc h
      · exact ih _
          (resolveMatches_preserves_other o htt (matchingBranchesFor tid rbs) acc h)

/-- Claim C9: the resolver's task-branch map has an entry for every
input task identifier; a task identifier with no qualifying branches
(matching no remote branch line) maps to the empty sequence — its entry
is present and every entry under its key is `[]`, never a missing key —
and, for a fixed merged-branch snapshot `M`, a branch that is already
merged is recorded nowhere: neither in the required-branch set nor in
any entry of the traceability map. -/
theorem resolver_total_map_and_merged_excluded
    (M tids rbs : List Str) :
    (∀ t ∈ tids,
      ∃ l, (t, l) ∈ (get_matching_branches (fun _ => M) tids rbs).2) ∧
    (∀ t ∈ tids, matchingBranchesFor t rbs = [] →
      (t, ([] : List Str)) ∈ (get_matching_branches (fun _ => M) tids rbs).2 ∧
      ∀ p ∈ (get_matching_branches (fun _ => M) tids rbs).2,
        p.1 = t → p.2 = []) ∧
    (∀ b ∈ M,
      b ∉ (get_matching_branches (fun _ => M) tids rbs).1 ∧
      ∀ p ∈ (get_matching_branches (fun _ => M) tids rbs).2, b ∉ p.2) := by
  have hkey : ∀ t ∈ tids,
      ∃ l, (t, l) ∈ (get_matching_branches (fun _ => M) tids rbs).2 := by
    intro t ht
    have hkeys := resolveTasks_keys (fun _ => M) rbs tids
      (ResolveAcc.mk [] (tids.dedup.map (fun t => (t, []))) 0)
    have htk : t ∈ (get_matching_branches (fun _ => M) tids rbs).2.map Prod.fst := by
      unfold get_matching_branches
      simp only
      rw [hkeys]
      simp only [List.map_map]
      refine List.mem_map.mpr ⟨t, List.mem_dedup.mpr ht, rfl⟩
    obtain ⟨p, hp, hfst⟩ := List.mem_map.mp htk
    exact ⟨p.2, by rw [← hfst]; exact hp⟩
  refine ⟨hkey, ?_, ?_⟩
  · intro t ht hempty
    have hall : ∀ p ∈ (get_matching_branches (fun _ => M) tids rbs).2,
        p.1 = t → p.2 = [] := by
      unfold get_matching_branches
      simp only
      refine resolveTasks_empty_entry (fun _ => M) rbs hempty tids _ ?_
      intro p hp _
      obtain ⟨u, _, hpu⟩ := List.mem_map.mp hp
      rw [← hpu]
    refine ⟨?_, hall⟩
    obtain ⟨l, hl⟩ := hkey t ht
    have hnil : l = [] := hall (t, l) hl rfl
    rw [← hnil]
    exact hl
  · intro b hb
    have init2 : ∀ p ∈ (tids.dedup.map (fun t => ((t : Str), ([] : List Str)))),
        b ∉ p.2 := by
      intro p hp
      obtain ⟨t, _, hpt⟩ := List.mem_map.mp hp
      rw [← hpt]
      simp
    exact resolveTasks_excludes M hb rbs tids
      (ResolveAcc.mk [] (tids.dedup.map (fun t => (t, []))) 0)
      (by simp) init2

/-- Claim C9, witness: with tasks `T` and `U`, where `U` matches no
remote branch and `T-b` is already merged, the map has an entry for `T`,
the entry for `U` is the empty sequence, and `T-b` is excluded from the
required set. -/
theorem resolver_total_map_witness :
    (∃ l, (("T".toList : Str), l) ∈
      (get_matching_branches (fun _ => [("T-b".toList : Str)])
        ["T".toList, "U".toList] rbsT).2) ∧
    (("U".toList : Str), ([] : List Str)) ∈
      (get_matching_branches (fun _ => [("T-b".toList : Str)])
        ["T".toList, "U".toList] rbsT).2 ∧
    "T-b".toList ∉
      (get_matching_branches (fun _ => [("T-b".toList : Str)])
        ["T".toList, "U".toList] rbsT).1 :=
  ⟨(resolver_total_map_and_merged_excluded ["T-b".toList]
      ["T".toList, "U".toList] rbsT).1 "T".toList (by decide),
   ((resolver_total_map_and_merged_excluded ["T-b".toList]
      ["T".toList, "U".toList] rbsT).2.1 "U".toList (by decide) (by decide)).1,
   ((resolver_total_map_and_merged_excluded ["T-b".toList]
      ["T".toList, "U".toList] rbsT).2.2 "T-b".toList (by decide)).1⟩
